import Mathlib

/-!
Verification of the DBSCAN-Analysis repository.

The repository's core is `utils.find_optimal_parameters`: a brute-force
search over candidate `min_samples` values.  For each candidate `m` it
computes the per-row distance to the `m`-th nearest neighbour (self
included), sorts that curve ascending, locates an elbow with the external
`kneed.KneeLocator`, takes the distance at the elbow index as the candidate
`eps`, clusters with `sklearn.cluster.DBSCAN`, rejects degenerate
labelings, scores with `sklearn.metrics.silhouette_score`, and keeps the
strictly best-scoring pair, falling back to `(0.3, 3)` when nothing
survives.  The four analysis pipelines standardize a feature table, run
the search, cluster once, and summarise.

Modelling conventions of this embedding:

* Matrices are `List (List ℚ)` (row major); floats are modelled by `ℚ`.
* Euclidean distances are represented throughout by their *squares*
  (`sqdistQ`), which keeps every definition computable over `ℚ`: sorting,
  `m`-th-smallest selection, DBSCAN's `dist ≤ eps` threshold and the
  elbow-index lookup are all invariant under the monotone bijection
  `x ↦ x^2` between distances and squared distances, so a value `epsSq`
  here stands for the source's `eps = sqrt epsSq`.  The fixed default
  `eps = 0.3` is accordingly represented by `9/100`.
* `KneeLocator` and `silhouette_score` are third-party collaborators, not
  code of this repository; they are modelled as explicit function
  parameters (`elbow : List ℚ → Option ℕ`, `sil : matrix → labels → ℚ`).
  Both libraries are deterministic functions of their input, so a pure
  function parameter is a faithful abstraction.
* DBSCAN is modelled concretely, following sklearn's `dbscan_inner`
  algorithm verbatim (precomputed neighbourhoods, core mask with the
  point itself counted, outer scan in row order, stack-based expansion
  that claims every still-unlabelled reachable point).  Recursion is
  fuel-indexed; the fuel supplied by `dbscanRun` dominates the total
  number of stack operations, which is bounded by the number of
  (core point, neighbour) pairs.  Before any clustering happens the
  estimator validates its parameters — every scikit-learn release
  rejects a non-positive `eps` — so `fit_predict` below is the
  post-validation clustering kernel, and `fit_predictE`, `selStepE`,
  `find_optimal_loopE` and `find_optimal_parametersE` model the
  parameter search including this validation and its exception path;
  the pure `find_optimal_parameters` is the restriction of the latter
  to runs in which no validation fires (`find_optimal_coreE_agrees`).
* `StandardScaler` divides each centred column by its population standard
  deviation, replacing a zero deviation by 1 (`_handle_zeros_in_scale`).
  The standard deviation is an irrational square root in general, so
  `scaleColumn` receives it as a parameter `s` constrained in the theorems
  by `s ^ 2 = colPopVar c`.
-/

/-- Squared Euclidean distance between two rows
(`sklearn`'s default metric is Euclidean; squared representation). -/
def sqdistQ (p q : List ℚ) : ℚ :=
  ((p.zip q).map (fun t => (t.1 - t.2) ^ 2)).sum

/-- Indices of all rows of `X` within (squared) distance `epsSq` of the
point `p` — sklearn's `radius_neighbors`, the point itself included. -/
def regionQuery (X : List (List ℚ)) (epsSq : ℚ) (p : List ℚ) : List ℕ :=
  (List.range X.length).filter (fun j => decide (sqdistQ p (X.getD j []) ≤ epsSq))

/-- Precomputed neighbourhood list for every row, exactly as sklearn's
`DBSCAN.fit` does before running `dbscan_inner`. -/
def neighborhoods (X : List (List ℚ)) (epsSq : ℚ) : List (List ℕ) :=
  X.map (regionQuery X epsSq)

/-- Core mask: a point is core when its `epsSq`-neighbourhood (itself
included) has at least `m` members — sklearn counts the point itself
towards `min_samples`. -/
def coreFlags (nbhds : List (List ℕ)) (m : ℕ) : List Bool :=
  nbhds.map (fun nb => decide (m ≤ nb.length))

/-- One cluster expansion of sklearn's `dbscan_inner`: starting from row
`i` with the work stack `stack`, label every still-unlabelled point that
is reachable through core points with `labelNum`.  The recursion is
fuel-indexed; each step mirrors one iteration of the `while True` loop:
label the current point if unlabelled, push its unlabelled neighbours if
it is core, then pop the next point or stop when the stack is empty. -/
def dbscanExpand (nbhds : List (List ℕ)) (core : List Bool) (labelNum : ℤ) :
    ℕ → ℕ → List ℕ → List ℤ → List ℤ
  | 0, _, _, labels => labels
  | fuel + 1, i, stack, labels =>
    let st :=
      if labels.getD i 0 = -1 then
        let labels1 := labels.set i labelNum
        if core.getD i false then
          (labels1, ((nbhds.getD i []).filter
            (fun v => decide (labels1.getD v 0 = -1))).reverse ++ stack)
        else (labels1, stack)
      else (labels, stack)
    match st.2 with
    | [] => st.1
    | v :: rest => dbscanExpand nbhds core labelNum fuel v rest st.1

/-- Outer scan of `dbscan_inner`: visit the rows in order, start a new
cluster at every still-unlabelled core point, and count the clusters. -/
def dbscanLoop (nbhds : List (List ℕ)) (core : List Bool) (fuel : ℕ) :
    List ℕ → List ℤ → ℤ → List ℤ × ℤ
  | [], labels, labelNum => (labels, labelNum)
  | i :: rest, labels, labelNum =>
    if labels.getD i 0 ≠ -1 ∨ core.getD i false = false then
      dbscanLoop nbhds core fuel rest labels labelNum
    else
      dbscanLoop nbhds core fuel rest
        (dbscanExpand nbhds core labelNum fuel i [] labels) (labelNum + 1)

/-- Full DBSCAN run: labels (initialised to all `-1`) together with the
number of clusters found.  `epsSq` is the squared radius, `m` is
`min_samples`. -/
def dbscanRun (X : List (List ℚ)) (epsSq : ℚ) (m : ℕ) : List ℤ × ℤ :=
  let nbhds := neighborhoods X epsSq
  let core := coreFlags nbhds m
  dbscanLoop nbhds core (X.length * X.length + X.length + 1)
    (List.range X.length) (List.replicate X.length (-1)) 0

/-- The labels computed by `sklearn.cluster.DBSCAN(eps, min_samples)`'s
clustering kernel, i.e. `fit_predict` *after* the estimator's parameter
validation has accepted `eps`; the validation itself (a non-positive
`eps` raises before any clustering happens) is modelled by
`fit_predictE` below. -/
def fit_predict (X : List (List ℚ)) (epsSq : ℚ) (m : ℕ) : List ℤ :=
  (dbscanRun X epsSq m).1

/-- The row of `m` ascending nearest-neighbour (squared) distances of `xi`
against all rows of `X` returned by
`NearestNeighbors(n_neighbors=m).kneighbors` — the point itself is part of
the queried set, so its zero self-distance is included.  The query is
defined for `m ≤ X.length` (sklearn raises `n_neighbors <= n_samples`
otherwise); the theorems about the k-distance curve carry that bound. -/
def kneighborsRow (X : List (List ℚ)) (m : ℕ) (xi : List ℚ) : List ℚ :=
  (List.insertionSort (· ≤ ·) (X.map (sqdistQ xi))).take m

/-- `distances[:, min_samples-1]`: for every row its `m`-th smallest
(squared) distance, taken from the `kneighbors` output. -/
def kdistCol (X : List (List ℚ)) (m : ℕ) : List ℚ :=
  X.map (fun xi => (kneighborsRow X m xi).getD (m - 1) 0)

/-- `np.sort(distances[:, min_samples-1])`: the ascending k-distance curve
handed to `KneeLocator`. -/
def kCurve (X : List (List ℚ)) (m : ℕ) : List ℚ :=
  List.insertionSort (· ≤ ·) (kdistCol X m)

/-- Claim-side characterisation of the same quantity: the `m`-th smallest
Euclidean (squared) distance from `xi` to every row of `X`, the point
itself included in the queried set. -/
def specKdist (X : List (List ℚ)) (m : ℕ) (xi : List ℚ) : ℚ :=
  (List.insertionSort (· ≤ ·) (X.map (sqdistQ xi))).getD (m - 1) 0

/-- The candidate `eps` (squared) derived for candidate `m`:
`distances[kneedle.elbow]`, i.e. the value of the sorted k-distance curve
at the elbow index, when the external elbow locator finds one. -/
def candidateEps (elbow : List ℚ → Option ℕ) (X : List (List ℚ)) (m : ℕ) :
    Option ℚ :=
  (elbow (kCurve X m)).map (fun idx => (kCurve X m).getD idx 0)

/-- Search state of `find_optimal_parameters`: the three Python variables
`best_eps`, `best_min_samples`, `best_score`.  `bestScore = none` models
the `float('-inf')` initialiser. -/
structure SelSt where
  bestEps : Option ℚ
  bestMin : Option ℕ
  bestScore : Option ℚ
deriving DecidableEq, Repr

/-- `score > best_score` where `best_score` may still be `-inf`. -/
def scoreGt (s : ℚ) : Option ℚ → Bool
  | none => true
  | some b => decide (b < s)

/-- The work done for one candidate `m`, before comparison with the
running best: `none` when `m` is skipped (no elbow, or a labeling with at
most one distinct value), otherwise the candidate `eps` (squared) together
with its silhouette score. -/
def candOf (elbow : List ℚ → Option ℕ) (sil : List (List ℚ) → List ℤ → ℚ)
    (X : List (List ℚ)) (m : ℕ) : Option (ℚ × ℚ) :=
  match elbow (kCurve X m) with
  | none => none
  | some idx =>
    let epsSq := (kCurve X m).getD idx 0
    let labels := fit_predict X epsSq m
    if labels.dedup.length ≤ 1 then none
    else some (epsSq, sil X labels)

/-- One iteration of the `for min_samples in range(...)` loop of
`find_optimal_parameters`. -/
def selStep (elbow : List ℚ → Option ℕ) (sil : List (List ℚ) → List ℤ → ℚ)
    (X : List (List ℚ)) (st : SelSt) (m : ℕ) : SelSt :=
  match candOf elbow sil X m with
  | none => st
  | some c => if scoreGt c.2 st.bestScore then ⟨some c.1, some m, some c.2⟩ else st

/-- The search over an explicit list of candidate `min_samples` values,
followed by the defaults fallback (`eps=0.3`, squared `9/100`;
`min_samples=3`) when `best_eps` is still `None`. -/
def find_optimal_core (elbow : List ℚ → Option ℕ)
    (sil : List (List ℚ) → List ℤ → ℚ) (X : List (List ℚ)) (ms : List ℕ) :
    ℚ × ℕ :=
  let fin := ms.foldl (selStep elbow sil X) ⟨none, none, none⟩
  match fin.bestEps, fin.bestMin with
  | some e, some m => (e, m)
  | _, _ => (9 / 100, 3)

/-- `utils.find_optimal_parameters(X_scaled, (lo, hi))`: the candidate
list is `range(lo, hi + 1)`. -/
def find_optimal_parameters (elbow : List ℚ → Option ℕ)
    (sil : List (List ℚ) → List ℤ → ℚ) (X : List (List ℚ)) (lo hi : ℕ) :
    ℚ × ℕ :=
  find_optimal_core elbow sil X (List.range' lo (hi + 1 - lo))

/-- The pipelines' reported cluster count: every pipeline computes
`len(df['cluster'].unique()) - 1`, unconditionally. -/
def numberOfClusters (labels : List ℤ) : ℤ :=
  (labels.dedup.length : ℤ) - 1

/-- The spec's formula for the cluster count: distinct labels minus one
when the noise label `-1` is present, the distinct-label count otherwise.
Stated from the spec's words, for comparison with `numberOfClusters`. -/
def specNumberOfClusters (labels : List ℤ) : ℤ :=
  if (-1 : ℤ) ∈ labels then (labels.dedup.length : ℤ) - 1
  else (labels.dedup.length : ℤ)

/-- A row of the product table after feature selection, as used by the
cluster-statistics loop: its cluster label, `average_sale_price` and
`total_quantity_sold`. -/
structure PRow where
  label : ℤ
  price : ℚ
  qty : ℚ
deriving DecidableEq, Repr

/-- One entry of the product pipeline's `cluster_statistics`. -/
structure ClusterStat where
  cluster : ℤ
  product_count : ℕ
  average_price : ℚ
  total_quantity : ℚ
deriving DecidableEq, Repr

/-- `analyze_products`' statistics loop: one entry per element of
`sorted(df['cluster'].unique())`, with the member count, mean price and
summed quantity of that cluster's rows. -/
def cluster_statistics (df : List PRow) : List ClusterStat :=
  (List.insertionSort (· ≤ ·) (df.map (fun r => r.label)).dedup).map (fun c =>
    let sub := df.filter (fun r => decide (r.label = c))
    ⟨c, sub.length, (sub.map (fun r => r.price)).sum / (sub.length : ℚ),
      (sub.map (fun r => r.qty)).sum⟩)

/-- The spec's error taxonomy (section 7). -/
inductive AnalysisError
  | noData
  | invalidInput
  | dataSource
  | paramSearch
deriving DecidableEq, Repr

/-- `df.dropna()` on the numeric feature columns: keep exactly the rows
with no missing value. -/
def dropna (df : List (List (Option ℚ))) : List (List ℚ) :=
  df.filterMap (fun r => r.mapM id)

/-- `utils.standardize_features`: forwards to `StandardScaler`, which
validates its input first — `check_array` rejects a matrix with zero rows
(the spec's `InvalidInputError`) before any statistics are computed.  The
columnwise affine transform itself involves irrational square roots, so
it is carried as the function parameter `stdz` (see `scaleColumn` for the
per-column model used by the standardization theorems). -/
def standardize_featuresE (stdz : List (List ℚ) → List (List ℚ))
    (X : List (List ℚ)) : Except AnalysisError (List (List ℚ)) :=
  if X.isEmpty then .error .invalidInput else .ok (stdz X)

/-- The data-acquisition stage of `analyze_products`: raise
(`NoDataError`) when the fetched table is empty, coerce to numeric and
drop rows with missing values, raise again when nothing survives,
otherwise hand the cleaned feature rows on. -/
def analyze_products_data (df : List (List (Option ℚ))) :
    Except AnalysisError (List (List ℚ)) :=
  if df.isEmpty then .error .noData
  else
    let cleaned := dropna df
    if cleaned.isEmpty then .error .noData else .ok cleaned

/-- `analyze_products` from the fetched numeric table onwards: the
checked data stage, then standardization, then the rest of the pipeline
(parameter search, clustering, summarisation), abstracted as `rest`. -/
def analyze_products_model {R : Type} (stdz : List (List ℚ) → List (List ℚ))
    (rest : List (List ℚ) → Except AnalysisError R)
    (df : List (List (Option ℚ))) : Except AnalysisError R :=
  analyze_products_data df >>= fun cleaned =>
    standardize_featuresE stdz cleaned >>= rest

/-- `analyze_customers` (and likewise the supplier and country pipelines)
from the fetched table onwards: **no** emptiness check — the selected
feature columns go straight into `standardize_features`. -/
def analyze_customers_model {R : Type} (stdz : List (List ℚ) → List (List ℚ))
    (rest : List (List ℚ) → Except AnalysisError R)
    (df : List (List ℚ)) : Except AnalysisError R :=
  standardize_featuresE stdz df >>= rest

/-- Mean of a feature column. -/
def colMean (c : List ℚ) : ℚ :=
  c.sum / (c.length : ℚ)

/-- Population variance of a feature column (`StandardScaler` uses the
biased estimator). -/
def colPopVar (c : List ℚ) : ℚ :=
  ((c.map (fun x => (x - colMean c) ^ 2)).sum) / (c.length : ℚ)

/-- `StandardScaler`'s per-column transform: centre by the mean and
divide by the scale, where `_handle_zeros_in_scale` replaces a zero
standard deviation by `1`.  The standard deviation `s` (the nonnegative
square root of `colPopVar c`, irrational in general) is supplied as a
parameter and pinned by hypothesis in the theorems. -/
def scaleColumn (c : List ℚ) (s : ℚ) : List ℚ :=
  let scale := if colPopVar c = 0 then 1 else s
  c.map (fun x => (x - colMean c) / scale)

/-- Decidable form of "the candidate for `m`, when any, scores at most
`s0`" — used to state tie-break hypotheses evaluable on concrete input. -/
def candScoreLE (c : Option (ℚ × ℚ)) (s0 : ℚ) : Prop :=
  match c with
  | none => True
  | some p => p.2 ≤ s0

/-- Decidable form of "the candidate for `m`, when any, scores strictly
below `s0`". -/
def candScoreLT (c : Option (ℚ × ℚ)) (s0 : ℚ) : Prop :=
  match c with
  | none => True
  | some p => p.2 < s0

instance (c : Option (ℚ × ℚ)) (s0 : ℚ) : Decidable (candScoreLE c s0) := by
  unfold candScoreLE; exact match c with
  | none => inferInstanceAs (Decidable True)
  | some p => inferInstanceAs (Decidable (p.2 ≤ s0))

instance (c : Option (ℚ × ℚ)) (s0 : ℚ) : Decidable (candScoreLT c s0) := by
  unfold candScoreLT; exact match c with
  | none => inferInstanceAs (Decidable True)
  | some p => inferInstanceAs (Decidable (p.2 < s0))

/-- `DBSCAN(eps, min_samples).fit_predict` *including* the estimator's
parameter validation: every scikit-learn release rejects a non-positive
`eps` before any clustering happens (`"eps must be positive"` up to 1.1,
`InvalidParameterError` from 1.2).  In the squared-distance encoding
`eps > 0` is exactly `0 < epsSq`.  The raised `ValueError` propagates out
of `find_optimal_parameters` unchanged — the spec's
`ParameterSearchError`. -/
def fit_predictE (X : List (List ℚ)) (epsSq : ℚ) (m : ℕ) :
    Except AnalysisError (List ℤ) :=
  if 0 < epsSq then .ok (fit_predict X epsSq m) else .error .paramSearch

/-- One iteration of the search loop *with* the estimator's validation:
`labels = dbscan.fit_predict(X_scaled)` is reached through
`fit_predictE`, so a candidate whose elbow distance is zero raises
instead of being scored, and the error aborts the iteration. -/
def selStepE (elbow : List ℚ → Option ℕ) (sil : List (List ℚ) → List ℤ → ℚ)
    (X : List (List ℚ)) (st : SelSt) (m : ℕ) : Except AnalysisError SelSt :=
  match elbow (kCurve X m) with
  | none => .ok st
  | some idx =>
    match fit_predictE X ((kCurve X m).getD idx 0) m with
    | .error err => .error err
    | .ok labels =>
      if labels.dedup.length ≤ 1 then .ok st
      else .ok (if scoreGt (sil X labels) st.bestScore
        then ⟨some ((kCurve X m).getD idx 0), some m, some (sil X labels)⟩
        else st)

/-- The `for min_samples in range(...)` loop with exception propagation:
the first failing iteration aborts the whole search. -/
def find_optimal_loopE (elbow : List ℚ → Option ℕ)
    (sil : List (List ℚ) → List ℤ → ℚ) (X : List (List ℚ)) :
    List ℕ → SelSt → Except AnalysisError SelSt
  | [], st => .ok st
  | m :: rest, st =>
    match selStepE elbow sil X st m with
    | .error err => .error err
    | .ok st' => find_optimal_loopE elbow sil X rest st'

/-- The search over an explicit candidate list, with the estimator's
validation: either the loop raises (propagated unchanged), or the best
recorded pair — defaulting to `(0.3, 3)` when `best_eps` is still
`None` — is returned.  `find_optimal_core` is the restriction of this
function to runs in which no validation fires
(`find_optimal_coreE_agrees`). -/
def find_optimal_coreE (elbow : List ℚ → Option ℕ)
    (sil : List (List ℚ) → List ℤ → ℚ) (X : List (List ℚ)) (ms : List ℕ) :
    Except AnalysisError (ℚ × ℕ) :=
  match find_optimal_loopE elbow sil X ms ⟨none, none, none⟩ with
  | .error err => .error err
  | .ok fin =>
    match fin.bestEps, fin.bestMin with
    | some e, some m => .ok (e, m)
    | _, _ => .ok (9 / 100, 3)

/-- `utils.find_optimal_parameters(X_scaled, (lo, hi))` with the
estimator's validation. -/
def find_optimal_parametersE (elbow : List ℚ → Option ℕ)
    (sil : List (List ℚ) → List ℤ → ℚ) (X : List (List ℚ)) (lo hi : ℕ) :
    Except AnalysisError (ℚ × ℕ) :=
  find_optimal_coreE elbow sil X (List.range' lo (hi + 1 - lo))

/-! ### Lemmas about the DBSCAN model -/

theorem dbscanExpand_length (nbhds : List (List ℕ)) (core : List Bool) (c : ℤ) :
    ∀ (fuel i : ℕ) (stack : List ℕ) (labels : List ℤ),
      (dbscanExpand nbhds core c fuel i stack labels).length = labels.length := by
  intro fuel
  induction fuel with
  | zero => intro i stack labels; rfl
  | succ n ih =>
    intro i stack labels
    have key : ∀ st : List ℤ × List ℕ, st.1.length = labels.length →
        (match st.2 with
         | [] => st.1
         | v :: rest => dbscanExpand nbhds core c n v rest st.1).length = labels.length := by
      intro st hlen
      rcases st with ⟨L, S⟩
      cases S with
      | nil => exact hlen
      | cons v rest => rw [ih]; exact hlen
    rw [dbscanExpand]
    exact key _ (by split_ifs <;> simp)

theorem dbscanExpand_mem (nbhds : List (List ℕ)) (core : List Bool) (c : ℤ) :
    ∀ (fuel i : ℕ) (stack : List ℕ) (labels : List ℤ) (l : ℤ),
      l ∈ dbscanExpand nbhds core c fuel i stack labels → l ∈ labels ∨ l = c := by
  intro fuel
  induction fuel with
  | zero => intro i stack labels l hl; exact Or.inl hl
  | succ n ih =>
    intro i stack labels l
    have key : ∀ st : List ℤ × List ℕ, (∀ x ∈ st.1, x ∈ labels ∨ x = c) →
        l ∈ (match st.2 with
             | [] => st.1
             | v :: rest => dbscanExpand nbhds core c n v rest st.1) →
          l ∈ labels ∨ l = c := by
      intro st hmem
      rcases st with ⟨L, S⟩
      cases S with
      | nil => exact fun hl => hmem l hl
      | cons v rest =>
        intro hl
        rcases ih v rest L l hl with h | h
        · exact hmem l h
        · exact Or.inr h
    rw [dbscanExpand]
    refine key _ ?_
    intro x hx
    split_ifs at hx
    · exact List.mem_or_eq_of_mem_set hx
    · exact List.mem_or_eq_of_mem_set hx
    · exact Or.inl hx

theorem dbscanLoop_inv (nbhds : List (List ℕ)) (core : List Bool) (fuel : ℕ) :
    ∀ (idxs : List ℕ) (labels : List ℤ) (c : ℤ), 0 ≤ c →
      (∀ l ∈ labels, l = -1 ∨ (0 ≤ l ∧ l < c)) →
      c ≤ (dbscanLoop nbhds core fuel idxs labels c).2 ∧
      (∀ l ∈ (dbscanLoop nbhds core fuel idxs labels c).1,
         l = -1 ∨ (0 ≤ l ∧ l < (dbscanLoop nbhds core fuel idxs labels c).2)) ∧
      (dbscanLoop nbhds core fuel idxs labels c).1.length = labels.length := by
  intro idxs
  induction idxs with
  | nil => intro labels c _ h; exact ⟨le_refl c, h, rfl⟩
  | cons i rest ih =>
    intro labels c hc h
    rw [dbscanLoop]
    split
    · exact ih labels c hc h
    · have hmem : ∀ l ∈ dbscanExpand nbhds core c fuel i [] labels,
          l = -1 ∨ (0 ≤ l ∧ l < c + 1) := by
        intro l hl
        rcases dbscanExpand_mem nbhds core c fuel i [] labels l hl with hm | hm
        · rcases h l hm with h1 | ⟨h2, h3⟩
          · exact Or.inl h1
          · exact Or.inr ⟨h2, by omega⟩
        · exact Or.inr ⟨by omega, by omega⟩
      rcases ih (dbscanExpand nbhds core c fuel i [] labels) (c + 1) (by omega) hmem with
        ⟨h1, h2, h3⟩
      exact ⟨by omega, h2, by rw [h3, dbscanExpand_length]⟩

/-- **C9.** For every matrix `Xs` and parameter pair, clustering returns a
labeling whose length equals the row count of `Xs` (one label per row, in
row order, since the label list is positional), and every label value is
either `-1` (noise) or an integer in `0..k-1`, where `k` is the number of
clusters counted by the run. -/
theorem cluster_label_invariant (X : List (List ℚ)) (epsSq : ℚ) (m : ℕ) :
    (fit_predict X epsSq m).length = X.length ∧
    0 ≤ (dbscanRun X epsSq m).2 ∧
    ∀ l ∈ fit_predict X epsSq m, l = -1 ∨ (0 ≤ l ∧ l < (dbscanRun X epsSq m).2) := by
  have hinit : ∀ l ∈ List.replicate X.length (-1 : ℤ), l = -1 ∨ (0 ≤ l ∧ l < 0) :=
    fun l hl => Or.inl (List.eq_of_mem_replicate hl)
  have h := dbscanLoop_inv (neighborhoods X epsSq) (coreFlags (neighborhoods X epsSq) m)
    (X.length * X.length + X.length + 1) (List.range X.length)
    (List.replicate X.length (-1)) 0 le_rfl hinit
  simp only [fit_predict, dbscanRun]
  exact ⟨by rw [h.2.2, List.length_replicate], h.1, h.2.1⟩

/-- Witness for `cluster_label_invariant` at a concrete run: the single
point of `[[0]]` is noise under `min_samples = 2`. -/
theorem cluster_label_invariant_witness :
    (-1 : ℤ) = -1 ∨ (0 ≤ (-1 : ℤ) ∧ (-1 : ℤ) < (dbscanRun [[(0 : ℚ)]] 1 2).2) :=
  (cluster_label_invariant [[(0 : ℚ)]] 1 2).2.2 (-1) (by with_unfolding_all decide)

/-! ### Lemmas about the parameter search -/

theorem selStep_of_none {elbow : List ℚ → Option ℕ}
    {sil : List (List ℚ) → List ℤ → ℚ} {X : List (List ℚ)} {m : ℕ}
    (h : candOf elbow sil X m = none) (st : SelSt) :
    selStep elbow sil X st m = st := by
  simp only [selStep, h]

theorem selStep_of_some {elbow : List ℚ → Option ℕ}
    {sil : List (List ℚ) → List ℤ → ℚ} {X : List (List ℚ)} {m : ℕ}
    {c : ℚ × ℚ} (h : candOf elbow sil X m = some c) (st : SelSt) :
    selStep elbow sil X st m =
      if scoreGt c.2 st.bestScore then ⟨some c.1, some m, some c.2⟩ else st := by
  simp only [selStep, h]

theorem candOf_eq_none_iff {elbow : List ℚ → Option ℕ}
    {sil : List (List ℚ) → List ℤ → ℚ} {X : List (List ℚ)} {m : ℕ} :
    candOf elbow sil X m = none ↔
      (∀ e, candidateEps elbow X m = some e →
        (fit_predict X e m).dedup.length ≤ 1) := by
  cases he : elbow (kCurve X m) with
  | none =>
    simp only [candOf, he, candidateEps, Option.map_none']
    constructor
    · intro _ e h
      cases h
    · intro _
      trivial
  | some idx =>
    simp only [candOf, he, candidateEps, Option.map_some']
    constructor
    · intro h e hee
      rcases Option.some.inj hee with rfl
      by_contra hgt
      rw [if_neg hgt] at h
      cases h
    · intro h
      rw [if_pos (h _ rfl)]

theorem foldl_selStep_all_skip {elbow : List ℚ → Option ℕ}
    {sil : List (List ℚ) → List ℤ → ℚ} {X : List (List ℚ)} :
    ∀ (ms : List ℕ) (st : SelSt),
      (∀ m ∈ ms, candOf elbow sil X m = none) →
      ms.foldl (selStep elbow sil X) st = st := by
  intro ms
  induction ms with
  | nil => intro st _; rfl
  | cons m rest ih =>
    intro st h
    rw [List.foldl_cons, selStep_of_none (h m (List.mem_cons_self m rest)) st]
    exact ih st (fun x hx => h x (List.mem_cons_of_mem m hx))

theorem foldl_selStep_le {elbow : List ℚ → Option ℕ}
    {sil : List (List ℚ) → List ℤ → ℚ} {X : List (List ℚ)} {s : ℚ}
    {e : ℚ} {m0 : ℕ} :
    ∀ (ms : List ℕ),
      (∀ m ∈ ms, candScoreLE (candOf elbow sil X m) s) →
      ms.foldl (selStep elbow sil X) ⟨some e, some m0, some s⟩ =
        ⟨some e, some m0, some s⟩ := by
  intro ms
  induction ms with
  | nil => intro _; rfl
  | cons m rest ih =>
    intro h
    rw [List.foldl_cons]
    have hm := h m (List.mem_cons_self m rest)
    have hstep : selStep elbow sil X ⟨some e, some m0, some s⟩ m =
        ⟨some e, some m0, some s⟩ := by
      cases hc : candOf elbow sil X m with
      | none => exact selStep_of_none hc _
      | some c =>
        rw [selStep_of_some hc]
        rw [hc] at hm
        unfold candScoreLE at hm
        have : scoreGt c.2 (some s) = false := by
          simp only [scoreGt, decide_eq_false_iff_not]
          exact not_lt_of_le hm
        rw [this]
        simp
    rw [hstep]
    exact ih (fun x hx => h x (List.mem_cons_of_mem m hx))

theorem foldl_selStep_lt {elbow : List ℚ → Option ℕ}
    {sil : List (List ℚ) → List ℤ → ℚ} {X : List (List ℚ)} {s : ℚ} :
    ∀ (ms : List ℕ) (st : SelSt),
      (∀ m ∈ ms, candScoreLT (candOf elbow sil X m) s) →
      (st.bestScore = none ∨ ∃ b, st.bestScore = some b ∧ b < s) →
      ((ms.foldl (selStep elbow sil X) st).bestScore = none ∨
        ∃ b, (ms.foldl (selStep elbow sil X) st).bestScore = some b ∧ b < s) := by
  intro ms
  induction ms with
  | nil => intro st _ hst; exact hst
  | cons m rest ih =>
    intro st h hst
    rw [List.foldl_cons]
    refine ih _ (fun x hx => h x (List.mem_cons_of_mem m hx)) ?_
    have hm := h m (List.mem_cons_self m rest)
    cases hc : candOf elbow sil X m with
    | none => rw [selStep_of_none hc]; exact hst
    | some c =>
      rw [selStep_of_some hc]
      rw [hc] at hm
      unfold candScoreLT at hm
      split
      · exact Or.inr ⟨c.2, rfl, hm⟩
      · exact hst

/-- **C2.** If every candidate `m` in the inclusive range `[lo, hi]` is
skipped — no elbow is found, or the elbow yields a labeling with at most
one distinct value — then `find_optimal_parameters` returns exactly the
fixed default pair `(eps = 0.3, min_samples = 3)` (`eps` represented by
its square `9/100`). -/
theorem find_optimal_parameters_defaults (elbow : List ℚ → Option ℕ)
    (sil : List (List ℚ) → List ℤ → ℚ) (X : List (List ℚ)) (lo hi : ℕ)
    (h : ∀ m ∈ List.range' lo (hi + 1 - lo), ∀ e,
      candidateEps elbow X m = some e → (fit_predict X e m).dedup.length ≤ 1) :
    find_optimal_parameters elbow sil X lo hi = (9 / 100, 3) := by
  unfold find_optimal_parameters find_optimal_core
  rw [foldl_selStep_all_skip _ _ (fun m hm => candOf_eq_none_iff.mpr (h m hm))]

/-- Witness for `find_optimal_parameters_defaults`, on the spec's own
fallback scenario: two identical rows, so every labeling collapses and
the search returns `(0.3, 3)`. -/
theorem find_optimal_parameters_defaults_witness :
    find_optimal_parameters (fun _ => some 0) (fun _ _ => 0) [[(1 : ℚ)], [1]] 2 2 =
      (9 / 100, 3) := by
  refine find_optimal_parameters_defaults _ _ _ 2 2 ?_
  intro m hm e hee
  have hm2 : m = 2 := by
    simpa [List.range'] using hm
  subst hm2
  have : candidateEps (fun _ => some 0) [[(1 : ℚ)], [1]] 2 = some 0 := by
    with_unfolding_all decide
  rw [this] at hee
  rcases Option.some.inj hee with rfl
  with_unfolding_all decide

/-- **C4.** A candidate `m` for which no elbow is found, or whose DBSCAN
labeling has at most one distinct label value, is skipped: the loop state
is unchanged and the search over any candidate list containing `m`
coincides with the search without `m` — the condition neither aborts the
search nor by itself selects the default pair. -/
theorem candidate_skip_continues (elbow : List ℚ → Option ℕ)
    (sil : List (List ℚ) → List ℤ → ℚ) (X : List (List ℚ)) (m : ℕ)
    (h : ∀ e, candidateEps elbow X m = some e →
      (fit_predict X e m).dedup.length ≤ 1) :
    (∀ st, selStep elbow sil X st m = st) ∧
    (∀ ms₁ ms₂, find_optimal_core elbow sil X (ms₁ ++ m :: ms₂) =
      find_optimal_core elbow sil X (ms₁ ++ ms₂)) := by
  have hc : candOf elbow sil X m = none := candOf_eq_none_iff.mpr h
  refine ⟨fun st => selStep_of_none hc st, fun ms₁ ms₂ => ?_⟩
  unfold find_optimal_core
  rw [List.foldl_append, List.foldl_append, List.foldl_cons, selStep_of_none hc]

/-- Witness for `candidate_skip_continues`: with an elbow locator that
never finds an elbow, removing the skipped candidate `5` leaves the
search result unchanged. -/
theorem candidate_skip_continues_witness :
    find_optimal_core (fun _ => none) (fun _ _ => 0) [[(0 : ℚ)]] ([2] ++ 5 :: [3]) =
      find_optimal_core (fun _ => none) (fun _ _ => 0) [[(0 : ℚ)]] ([2] ++ [3]) :=
  (candidate_skip_continues (fun _ => none) (fun _ _ => 0) [[(0 : ℚ)]] 5
    (by intro e hee; simp [candidateEps] at hee)).2 [2] [3]

theorem getD_take_pred (l : List ℚ) (m : ℕ) (h : 1 ≤ m) :
    (l.take m).getD (m - 1) 0 = l.getD (m - 1) 0 := by
  rw [List.getD_eq_getElem?_getD, List.getD_eq_getElem?_getD, List.getElem?_take]
  rw [if_pos (Nat.sub_lt (Nat.lt_of_lt_of_le Nat.zero_lt_one h) Nat.one_pos)]

theorem kdistCol_eq_specKdist (X : List (List ℚ)) (m : ℕ) (h : 1 ≤ m) :
    kdistCol X m = X.map (specKdist X m) := by
  unfold kdistCol specKdist kneighborsRow
  exact List.map_congr_left (fun xi _ => getD_take_pred _ m h)

/-- **C3.** For a candidate `m` on which the elbow locator returns index
`idx`, the candidate `eps` (squared representation) equals the value at
`idx` of the curve `kCurve X m`, and that curve is exactly the
ascending-sorted sequence of the per-row `m`-th-smallest Euclidean
(squared) distances to all rows, the row itself included in the
neighbour query (`specKdist`); moreover the search loop can only record
this very value as `best_eps` for `m`. -/
theorem candidate_eps_at_elbow (elbow : List ℚ → Option ℕ) (X : List (List ℚ))
    (m idx : ℕ) (h1 : 1 ≤ m) (_h2 : m ≤ X.length)
    (he : elbow (kCurve X m) = some idx) :
    candidateEps elbow X m = some ((kCurve X m).getD idx 0) ∧
    (kCurve X m).Sorted (· ≤ ·) ∧
    (kCurve X m).Perm (X.map (specKdist X m)) ∧
    ∀ (sil : List (List ℚ) → List ℤ → ℚ) (st : SelSt),
      selStep elbow sil X st m = st ∨
      ∃ s, selStep elbow sil X st m =
        ⟨some ((kCurve X m).getD idx 0), some m, some s⟩ := by
  refine ⟨by simp [candidateEps, he], List.sorted_insertionSort _ _, ?_, ?_⟩
  · rw [← kdistCol_eq_specKdist X m h1]
    exact List.perm_insertionSort _ _
  · intro sil st
    rw [selStep]
    cases hc : candOf elbow sil X m with
    | none => exact Or.inl rfl
    | some c =>
      simp only
      unfold candOf at hc
      rw [he] at hc
      simp only at hc
      split at hc
      · cases hc
      · rcases Option.some.inj hc with rfl
        split
        · exact Or.inr ⟨sil X (fit_predict X ((kCurve X m).getD idx 0) m), rfl⟩
        · exact Or.inl rfl

/-- Witness for `candidate_eps_at_elbow` on a concrete 3-row matrix with
`m = 2` and elbow index 1. -/
theorem candidate_eps_at_elbow_witness :
    candidateEps (fun _ => some 1) [[(0 : ℚ)], [0], [1]] 2 =
      some ((kCurve [[(0 : ℚ)], [0], [1]] 2).getD 1 0) :=
  (candidate_eps_at_elbow (fun _ => some 1) [[(0 : ℚ)], [0], [1]] 2 1
    (by norm_num) (by norm_num) rfl).1

/-- **C5.** The parameter search is deterministic — repeated calls on the
same input return the identical pair (definitional, since the embedding
of the search and of its deterministic collaborators is a pure
function) — and ties are broken in favour of the first-found candidate:
when the candidate list splits as `P ++ m₁ :: S` with every candidate in
`P` scoring strictly below `s`, candidate `m₁` scoring exactly `s`, and
every candidate in `S` scoring at most `s` — in particular a later
candidate `m₂ ∈ S` with exactly the score `s` — the search returns
`m₁`'s pair, because `score > best_score` uses strict comparison. -/
theorem selector_deterministic_tie_break (elbow : List ℚ → Option ℕ)
    (sil : List (List ℚ) → List ℤ → ℚ) (X : List (List ℚ)) (lo hi : ℕ)
    (P S : List ℕ) (m₁ m₂ : ℕ) (e₁ e₂ s : ℚ)
    (hrange : List.range' lo (hi + 1 - lo) = P ++ m₁ :: S)
    (hc1 : candOf elbow sil X m₁ = some (e₁, s))
    (hP : ∀ m ∈ P, candScoreLT (candOf elbow sil X m) s)
    (hS : ∀ m ∈ S, candScoreLE (candOf elbow sil X m) s)
    (_hm2 : m₂ ∈ S) (_hc2 : candOf elbow sil X m₂ = some (e₂, s)) :
    (∀ p₁ p₂, p₁ = find_optimal_parameters elbow sil X lo hi →
      p₂ = find_optimal_parameters elbow sil X lo hi → p₁ = p₂) ∧
    find_optimal_parameters elbow sil X lo hi = (e₁, m₁) := by
  refine ⟨fun p₁ p₂ h₁ h₂ => h₁.trans h₂.symm, ?_⟩
  unfold find_optimal_parameters find_optimal_core
  rw [hrange, List.foldl_append, List.foldl_cons]
  have h1 := foldl_selStep_lt P ⟨none, none, none⟩ hP (Or.inl rfl)
  have hstep : selStep elbow sil X (P.foldl (selStep elbow sil X) ⟨none, none, none⟩) m₁ =
      ⟨some e₁, some m₁, some s⟩ := by
    rw [selStep_of_some hc1]
    have hgt : scoreGt (e₁, s).2 (P.foldl (selStep elbow sil X) ⟨none, none, none⟩).bestScore
        = true := by
      rcases h1 with h | ⟨b, hb, hbs⟩
      · rw [h]; rfl
      · rw [hb]
        simp only [scoreGt, decide_eq_true_eq]
        exact hbs
    rw [hgt]
    simp
  rw [hstep, foldl_selStep_le S hS]

/-- Witness for `selector_deterministic_tie_break`: two groups of three
identical rows; candidates `m = 2` and `m = 3` both yield the two-cluster
labeling with equal score `0`, and the first-found pair `(0, 2)` wins. -/
theorem selector_deterministic_tie_break_witness :
    find_optimal_parameters (fun _ => some 3) (fun _ _ => 0)
      [[(-1 : ℚ)], [-1], [-1], [1], [1], [1]] 2 3 = (0, 2) :=
  (selector_deterministic_tie_break (fun _ => some 3) (fun _ _ => 0)
    [[(-1 : ℚ)], [-1], [-1], [1], [1], [1]] 2 3 [] [3] 2 3 0 0 0
    (by with_unfolding_all decide)
    (by with_unfolding_all decide)
    (by simp)
    (by
      intro m hm
      have h3 : m = 3 := by simpa using hm
      subst h3
      with_unfolding_all decide)
    (by simp)
    (by with_unfolding_all decide)).2

theorem candOf_none_of_no_elbow {elbow : List ℚ → Option ℕ}
    {sil : List (List ℚ) → List ℤ → ℚ} {X : List (List ℚ)} {m : ℕ}
    (he : elbow (kCurve X m) = none) : candOf elbow sil X m = none := by
  unfold candOf
  rw [he]

theorem candOf_fst_eq {elbow : List ℚ → Option ℕ}
    {sil : List (List ℚ) → List ℤ → ℚ} {X : List (List ℚ)} {m idx : ℕ}
    {c : ℚ × ℚ} (he : elbow (kCurve X m) = some idx)
    (hc : candOf elbow sil X m = some c) :
    c.1 = (kCurve X m).getD idx 0 := by
  unfold candOf at hc
  rw [he] at hc
  simp only at hc
  split at hc
  · cases hc
  · rcases Option.some.inj hc with rfl
    rfl

theorem selStepE_of_none {elbow : List ℚ → Option ℕ}
    {sil : List (List ℚ) → List ℤ → ℚ} {X : List (List ℚ)} {m : ℕ}
    (st : SelSt) (he : elbow (kCurve X m) = none) :
    selStepE elbow sil X st m = .ok st := by
  unfold selStepE
  rw [he]

theorem selStepE_of_zero {elbow : List ℚ → Option ℕ}
    {sil : List (List ℚ) → List ℤ → ℚ} {X : List (List ℚ)} {m idx : ℕ}
    (st : SelSt) (he : elbow (kCurve X m) = some idx)
    (hz : ¬ 0 < (kCurve X m).getD idx 0) :
    selStepE elbow sil X st m = .error .paramSearch := by
  unfold selStepE fit_predictE
  rw [he]
  simp only [if_neg hz]

theorem selStepE_of_pos {elbow : List ℚ → Option ℕ}
    {sil : List (List ℚ) → List ℤ → ℚ} {X : List (List ℚ)} {m idx : ℕ}
    (st : SelSt) (he : elbow (kCurve X m) = some idx)
    (hpos : 0 < (kCurve X m).getD idx 0) :
    selStepE elbow sil X st m = .ok (selStep elbow sil X st m) := by
  unfold selStepE fit_predictE selStep candOf
  rw [he]
  simp only [if_pos hpos]
  by_cases hd : (fit_predict X ((kCurve X m).getD idx 0) m).dedup.length ≤ 1
  · simp only [if_pos hd]
  · simp only [if_neg hd]

theorem selStepE_ok_inv {elbow : List ℚ → Option ℕ}
    {sil : List (List ℚ) → List ℤ → ℚ} {X : List (List ℚ)}
    {st st' : SelSt} {m lo : ℕ}
    (h : selStepE elbow sil X st m = .ok st') (hm : lo ≤ m)
    (h1 : ∀ e, st.bestEps = some e → 0 < e)
    (h2 : ∀ m', st.bestMin = some m' → lo ≤ m') :
    (∀ e, st'.bestEps = some e → 0 < e) ∧
    (∀ m', st'.bestMin = some m' → lo ≤ m') := by
  cases he : elbow (kCurve X m) with
  | none =>
    rw [selStepE_of_none st he] at h
    rcases Except.ok.inj h with rfl
    exact ⟨h1, h2⟩
  | some idx =>
    by_cases hpos : 0 < (kCurve X m).getD idx 0
    · rw [selStepE_of_pos st he hpos] at h
      rcases Except.ok.inj h with rfl
      cases hc : candOf elbow sil X m with
      | none => rw [selStep_of_none hc]; exact ⟨h1, h2⟩
      | some c =>
        rw [selStep_of_some hc]
        split
        · constructor
          · intro e hee
            rcases Option.some.inj hee with rfl
            rw [candOf_fst_eq he hc]
            exact hpos
          · intro m' hm'
            rcases Option.some.inj hm' with rfl
            exact hm
        · exact ⟨h1, h2⟩
    · rw [selStepE_of_zero st he hpos] at h
      cases h

theorem find_optimal_loopE_inv {elbow : List ℚ → Option ℕ}
    {sil : List (List ℚ) → List ℤ → ℚ} {X : List (List ℚ)} {lo : ℕ} :
    ∀ (ms : List ℕ) (st fin : SelSt),
      (∀ m ∈ ms, lo ≤ m) →
      (∀ e, st.bestEps = some e → 0 < e) →
      (∀ m', st.bestMin = some m' → lo ≤ m') →
      find_optimal_loopE elbow sil X ms st = .ok fin →
      (∀ e, fin.bestEps = some e → 0 < e) ∧
      (∀ m', fin.bestMin = some m' → lo ≤ m') := by
  intro ms
  induction ms with
  | nil =>
    intro st fin _ h1 h2 h
    rcases Except.ok.inj h with rfl
    exact ⟨h1, h2⟩
  | cons m rest ih =>
    intro st fin hms h1 h2 h
    rw [find_optimal_loopE] at h
    cases hs : selStepE elbow sil X st m with
    | error err => rw [hs] at h; cases h
    | ok st' =>
      rw [hs] at h
      have hinv := selStepE_ok_inv hs (hms m (List.mem_cons_self m rest)) h1 h2
      exact ih st' fin (fun x hx => hms x (List.mem_cons_of_mem m hx)) hinv.1 hinv.2 h

theorem find_optimal_loopE_agrees {elbow : List ℚ → Option ℕ}
    {sil : List (List ℚ) → List ℤ → ℚ} {X : List (List ℚ)} :
    ∀ (ms : List ℕ) (st : SelSt),
      (∀ m ∈ ms, ∀ idx, elbow (kCurve X m) = some idx →
        0 < (kCurve X m).getD idx 0) →
      find_optimal_loopE elbow sil X ms st =
        .ok (ms.foldl (selStep elbow sil X) st) := by
  intro ms
  induction ms with
  | nil => intro st _; rfl
  | cons m rest ih =>
    intro st h
    rw [find_optimal_loopE, List.foldl_cons]
    have hstep : selStepE elbow sil X st m = .ok (selStep elbow sil X st m) := by
      cases he : elbow (kCurve X m) with
      | none =>
        rw [selStepE_of_none st he, selStep_of_none (candOf_none_of_no_elbow he)]
      | some idx =>
        exact selStepE_of_pos st he (h m (List.mem_cons_self m rest) idx he)
    rw [hstep]
    exact ih _ (fun x hx idx hidx => h x (List.mem_cons_of_mem m hx) idx hidx)

/-- On candidate lists where every found elbow sits on a strictly
positive distance, the validating search raises nothing and agrees with
the pure model used by the other theorems. -/
theorem find_optimal_coreE_agrees (elbow : List ℚ → Option ℕ)
    (sil : List (List ℚ) → List ℤ → ℚ) (X : List (List ℚ)) (ms : List ℕ)
    (h : ∀ m ∈ ms, ∀ idx, elbow (kCurve X m) = some idx →
      0 < (kCurve X m).getD idx 0) :
    find_optimal_coreE elbow sil X ms = .ok (find_optimal_core elbow sil X ms) := by
  have hcomm : ∀ (o1 : Option ℚ) (o2 : Option ℕ),
      (match o1, o2 with
       | some e, some m => Except.ok (ε := AnalysisError) (e, m)
       | _, _ => .ok (9 / 100, 3)) =
      .ok (match o1, o2 with
       | some e, some m => (e, m)
       | _, _ => ((9 : ℚ) / 100, (3 : ℕ))) := by
    intro o1 o2
    cases o1 <;> cases o2 <;> rfl
  unfold find_optimal_coreE find_optimal_core
  rw [find_optimal_loopE_agrees ms ⟨none, none, none⟩ h]
  exact hcomm _ _

/-- At a duplicate-rows matrix whose k-distance curve has its elbow on a
zero distance, the selector produces no Parameter Candidate at all: the
estimator's strict `eps > 0` validation raises at the first such
candidate and the error propagates out of the search. -/
theorem find_optimal_parametersE_zero_elbow_raises :
    find_optimal_parametersE (fun _ => some 3) (fun _ _ => 0)
      [[(-1 : ℚ)], [-1], [1], [1]] 2 4 = .error .paramSearch := by
  with_unfolding_all rfl

/-- **C8.** Every Parameter Candidate the Parameter Selector actually
produces satisfies the data-model invariant: `eps` is a positive real
(in the squared-distance encoding `0 < epsSq` is exactly `eps > 0`) and
`min_samples ≥ 2`, for any range starting at `lo ≥ 2` — for every input
matrix, matrices with duplicate rows included.  A recorded candidate's
`eps` passed the estimator's strict positivity validation, the fallback
pair is `(0.3, 3)`, and on inputs where the elbow distance is zero the
selector raises instead of producing a candidate
(`find_optimal_parametersE_zero_elbow_raises`). -/
theorem parameter_candidate_invariant (elbow : List ℚ → Option ℕ)
    (sil : List (List ℚ) → List ℤ → ℚ) (X : List (List ℚ)) (lo hi : ℕ)
    (e : ℚ) (m : ℕ) (hlo : 2 ≤ lo)
    (hok : find_optimal_parametersE elbow sil X lo hi = .ok (e, m)) :
    0 < e ∧ 2 ≤ m := by
  unfold find_optimal_parametersE find_optimal_coreE at hok
  cases hl : find_optimal_loopE elbow sil X (List.range' lo (hi + 1 - lo))
      ⟨none, none, none⟩ with
  | error err =>
    rw [hl] at hok
    dsimp only at hok
    cases hok
  | ok fin =>
    rw [hl] at hok
    dsimp only at hok
    have hms : ∀ x ∈ List.range' lo (hi + 1 - lo), lo ≤ x := by
      intro x hx
      rcases List.mem_range'.mp hx with ⟨i, _, rfl⟩
      omega
    have hinv := find_optimal_loopE_inv _ _ fin hms
      (fun e' he' => by cases he') (fun m' hm' => by cases hm') hl
    split at hok
    · rename_i e' m' hbe hbm
      rcases Prod.mk.inj (Except.ok.inj hok) with ⟨rfl, rfl⟩
      exact ⟨hinv.1 _ hbe, le_trans hlo (hinv.2 _ hbm)⟩
    · rcases Prod.mk.inj (Except.ok.inj hok) with ⟨he', hm'⟩
      constructor
      · rw [← he']
        norm_num
      · omega

/-- Witness for `parameter_candidate_invariant`: a search over four
distinct points that records a genuine candidate returns it, with
`eps` (squared) `1 > 0` and `min_samples = 2`. -/
theorem parameter_candidate_invariant_witness : 0 < (1 : ℚ) ∧ 2 ≤ 2 :=
  parameter_candidate_invariant (fun _ => some 0) (fun _ _ => 0)
    [[(0 : ℚ)], [1], [10], [11]] 2 2 1 2 (by norm_num)
    (by with_unfolding_all rfl)

/-- **C1 (counterexample).** Three identical rows clustered with
`min_samples = 2` produce the labeling `[0, 0, 0]`: no noise label is
present, yet the pipelines report `len(unique) - 1 = 0` clusters where
the claimed formula gives `1`. -/
theorem number_of_clusters_counterexample :
    fit_predict [[(0 : ℚ)], [0], [0]] 1 2 = [0, 0, 0] ∧
    (-1 : ℤ) ∉ fit_predict [[(0 : ℚ)], [0], [0]] 1 2 ∧
    numberOfClusters (fit_predict [[(0 : ℚ)], [0], [0]] 1 2) = 0 ∧
    specNumberOfClusters (fit_predict [[(0 : ℚ)], [0], [0]] 1 2) = 1 ∧
    numberOfClusters (fit_predict [[(0 : ℚ)], [0], [0]] 1 2) ≠
      specNumberOfClusters (fit_predict [[(0 : ℚ)], [0], [0]] 1 2) := by
  refine ⟨?_, ?_, ?_, ?_, ?_⟩ <;> with_unfolding_all decide

/-- **C1 (amended).** The reported `number_of_clusters` is the count of
distinct labels minus one *unconditionally*: it agrees with the spec's
conditional formula exactly when the noise label `-1` is present, and
undercounts it by one when `-1` is absent. -/
theorem number_of_clusters_formula (labels : List ℤ) :
    numberOfClusters labels = (labels.dedup.length : ℤ) - 1 ∧
    ((-1 : ℤ) ∈ labels →
      numberOfClusters labels = specNumberOfClusters labels) ∧
    ((-1 : ℤ) ∉ labels →
      numberOfClusters labels = specNumberOfClusters labels - 1) := by
  refine ⟨rfl, ?_, ?_⟩
  · intro h
    simp [numberOfClusters, specNumberOfClusters, h]
  · intro h
    simp [numberOfClusters, specNumberOfClusters, h]

/-- Witness for `number_of_clusters_formula` on concrete labelings with
and without the noise label. -/
theorem number_of_clusters_formula_witness :
    numberOfClusters [-1, 0] = specNumberOfClusters [-1, 0] ∧
    numberOfClusters [0, 1] = specNumberOfClusters [0, 1] - 1 :=
  ⟨(number_of_clusters_formula [-1, 0]).2.1 (by decide),
   (number_of_clusters_formula [0, 1]).2.2 (by decide)⟩

/-- **C6 (counterexample).** On an empty fetched table the customer
pipeline does **not** fail with `NoDataError`: it has no emptiness check
and proceeds to standardization, where the scaler's input validation
raises (the spec's `InvalidInputError` for an empty feature matrix). -/
theorem empty_input_error_counterexample :
    analyze_customers_model (R := Unit) id (fun _ => .ok ()) [] =
      .error .invalidInput ∧
    analyze_customers_model (R := Unit) id (fun _ => .ok ()) [] ≠
      .error .noData := by
  constructor
  · with_unfolding_all rfl
  · intro h
    rw [show analyze_customers_model (R := Unit) id (fun _ => .ok ()) [] =
        (.error .invalidInput : Except AnalysisError Unit) from by
      with_unfolding_all rfl] at h
    simp at h

/-- **C6 (amended).** Only the product pipeline guards its input: an
empty fetched table, or a table whose rows are all dropped by numeric
cleaning, makes `analyze_products` fail with `NoDataError` before
standardization and clustering.  The customer pipeline (and likewise the
supplier and country pipelines, which share its shape) performs no such
check: an empty table makes it fail inside `standardize_features` with
the standardizer's `InvalidInputError` — still an error, never an
empty-success response, but not `NoDataError`. -/
theorem empty_input_error_behavior {R : Type}
    (stdz : List (List ℚ) → List (List ℚ))
    (rest : List (List ℚ) → Except AnalysisError R)
    (df : List (List (Option ℚ))) (df' : List (List ℚ)) :
    (df = [] → analyze_products_model stdz rest df = .error .noData) ∧
    (dropna df = [] → analyze_products_model stdz rest df = .error .noData) ∧
    (df' = [] → analyze_customers_model stdz rest df' = .error .invalidInput) := by
  refine ⟨?_, ?_, ?_⟩
  · intro h
    subst h
    rfl
  · intro h
    unfold analyze_products_model analyze_products_data
    by_cases hdf : df.isEmpty
    · rw [if_pos hdf]
      rfl
    · rw [if_neg hdf]
      simp only [h]
      rfl
  · intro h
    subst h
    rfl

/-- Witness for `empty_input_error_behavior`: the product pipeline
signals `NoDataError` both on an empty table and on a table whose single
row is dropped by cleaning. -/
theorem empty_input_error_behavior_witness :
    analyze_products_model (R := Unit) id (fun _ => .ok ()) [] =
      .error .noData ∧
    analyze_products_model (R := Unit) id (fun _ => .ok ()) [[none]] =
      .error .noData :=
  ⟨(empty_input_error_behavior id (fun _ => .ok ()) [] []).1 rfl,
   (empty_input_error_behavior id (fun _ => .ok ()) [[none]] []).2.1
     (by with_unfolding_all rfl)⟩

theorem sum_map_div_right (c : List ℚ) (f : ℚ → ℚ) (s : ℚ) :
    (c.map (fun x => f x / s)).sum = (c.map f).sum / s := by
  induction c with
  | nil => simp
  | cons a tl ih => simp [ih, add_div]

theorem sum_map_sub_const (c : List ℚ) (μ : ℚ) :
    (c.map (fun x => x - μ)).sum = c.sum - (c.length : ℚ) * μ := by
  induction c with
  | nil => simp
  | cons a tl ih =>
    rw [List.map_cons, List.sum_cons, ih, List.sum_cons, List.length_cons]
    push_cast
    ring

theorem sum_map_sub_mean (c : List ℚ) (hn : (c.length : ℚ) ≠ 0) :
    (c.map (fun x => x - colMean c)).sum = 0 := by
  rw [sum_map_sub_const, colMean]
  field_simp

theorem sum_sq_zero_all_zero :
    ∀ (l : List ℚ), (∀ x ∈ l, 0 ≤ x) → l.sum = 0 → ∀ x ∈ l, x = 0 := by
  intro l
  induction l with
  | nil => intro _ _ x hx; cases hx
  | cons a tl ih =>
    intro hpos hsum x hx
    have ha : 0 ≤ a := hpos a (List.mem_cons_self a tl)
    have htl : 0 ≤ tl.sum :=
      List.sum_nonneg (fun y hy => hpos y (List.mem_cons_of_mem a hy))
    have hsum' : a + tl.sum = 0 := by simpa using hsum
    rcases List.mem_cons.mp hx with rfl | hx'
    · linarith
    · exact ih (fun y hy => hpos y (List.mem_cons_of_mem a hy)) (by linarith) x hx'

/-- **C7.** `StandardScaler`'s per-column transform maps every
non-constant column (population variance nonzero, standard deviation
`s > 0` with `s ^ 2 = colPopVar c`) to a column with mean exactly 0 and
population variance exactly 1 — in particular within the claimed `1e-9`
tolerance — and maps every constant column (population variance 0) to
the all-zero column, with no division by zero (`_handle_zeros_in_scale`
replaces a zero scale by 1). -/
theorem standardize_column_contract (c : List ℚ) (s : ℚ) (hne : c ≠ []) :
    (colPopVar c ≠ 0 → 0 < s → s ^ 2 = colPopVar c →
      colMean (scaleColumn c s) = 0 ∧ colPopVar (scaleColumn c s) = 1 ∧
      |colMean (scaleColumn c s)| ≤ 1 / 1000000000 ∧
      |colPopVar (scaleColumn c s) - 1| ≤ 1 / 1000000000) ∧
    (colPopVar c = 0 → scaleColumn c s = c.map (fun _ => 0)) := by
  have hn : (c.length : ℚ) ≠ 0 := by
    simpa using fun h => hne (List.length_eq_zero.mp h)
  constructor
  · intro hpv hs hs2
    have hscale : scaleColumn c s = c.map (fun x => (x - colMean c) / s) := by
      unfold scaleColumn
      rw [if_neg hpv]
    have hsum0 : ((c.map (fun x => (x - colMean c) / s)).sum) = 0 := by
      rw [sum_map_div_right, sum_map_sub_mean c hn, zero_div]
    have hmean : colMean (scaleColumn c s) = 0 := by
      rw [hscale, colMean, hsum0, zero_div]
    have hvar : colPopVar (scaleColumn c s) = 1 := by
      rw [colPopVar, hmean]
      have hlen : (scaleColumn c s).length = c.length := by
        rw [hscale, List.length_map]
      rw [hscale]
      have hmaps : ((c.map (fun x => (x - colMean c) / s)).map
          (fun x => (x - 0) ^ 2)).sum =
          ((c.map (fun x => (x - colMean c) ^ 2)).sum) / s ^ 2 := by
        rw [List.map_map]
        have : ((fun x => (x - 0) ^ 2) ∘ fun x => (x - colMean c) / s) =
            fun x => ((x - colMean c) ^ 2) / s ^ 2 := by
          funext x
          rw [Function.comp_apply, sub_zero, div_pow]
        rw [this, sum_map_div_right]
      rw [hmaps, List.length_map, hs2, colPopVar]
      have hS : (c.map (fun x => (x - colMean c) ^ 2)).sum ≠ 0 := by
        intro h0
        apply hpv
        rw [colPopVar, h0, zero_div]
      field_simp
    refine ⟨hmean, hvar, ?_, ?_⟩
    · rw [hmean]
      norm_num
    · rw [hvar]
      norm_num
  · intro hpv
    have hS : (c.map (fun x => (x - colMean c) ^ 2)).sum = 0 := by
      rw [colPopVar, div_eq_zero_iff] at hpv
      rcases hpv with h | h
      · exact h
      · exact absurd h hn
    have hall : ∀ x ∈ c, x - colMean c = 0 := by
      intro x hx
      have := sum_sq_zero_all_zero (c.map (fun x => (x - colMean c) ^ 2))
        (by
          intro y hy
          rcases List.mem_map.mp hy with ⟨x', _, rfl⟩
          exact sq_nonneg _)
        hS ((x - colMean c) ^ 2) (List.mem_map.mpr ⟨x, hx, rfl⟩)
      exact pow_eq_zero_iff (by norm_num) |>.mp this
    unfold scaleColumn
    rw [if_pos hpv]
    refine List.map_congr_left ?_
    intro x hx
    rw [hall x hx, zero_div]

/-- Witness for `standardize_column_contract`: the column `[-1, 1]`
(variance 1, deviation 1) standardizes to mean 0 and variance 1; the
constant column `[2, 2]` maps to `[0, 0]`. -/
theorem standardize_column_contract_witness :
    (colMean (scaleColumn [(-1 : ℚ), 1] 1) = 0 ∧
      colPopVar (scaleColumn [(-1 : ℚ), 1] 1) = 1 ∧
      |colMean (scaleColumn [(-1 : ℚ), 1] 1)| ≤ 1 / 1000000000 ∧
      |colPopVar (scaleColumn [(-1 : ℚ), 1] 1) - 1| ≤ 1 / 1000000000) ∧
    scaleColumn [(2 : ℚ), 2] 0 = [0, 0] :=
  ⟨(standardize_column_contract [(-1 : ℚ), 1] 1 (by simp)).1
      (by with_unfolding_all decide)
      (by norm_num)
      (by with_unfolding_all decide),
   (standardize_column_contract [(2 : ℚ), 2] 0 (by simp)).2
      (by with_unfolding_all decide)⟩

theorem sum_map_add_distrib (L : List ℤ) (f g : ℤ → ℕ) :
    (L.map (fun c => f c + g c)).sum = (L.map f).sum + (L.map g).sum := by
  induction L with
  | nil => simp
  | cons a tl ih =>
    simp only [List.map_cons, List.sum_cons, ih]
    omega

theorem sum_map_ite_zero (x : ℤ) :
    ∀ (L : List ℤ), x ∉ L → (L.map (fun c => if x = c then (1 : ℕ) else 0)).sum = 0 := by
  intro L
  induction L with
  | nil => intro _; rfl
  | cons a tl ih =>
    intro hx
    have hxa : x ≠ a := fun h => hx (h ▸ List.mem_cons_self a tl)
    have hxtl : x ∉ tl := fun h => hx (List.mem_cons_of_mem a h)
    simp [hxa, ih hxtl]

theorem sum_map_ite_one (x : ℤ) :
    ∀ (L : List ℤ), L.Nodup → x ∈ L →
      (L.map (fun c => if x = c then (1 : ℕ) else 0)).sum = 1 := by
  intro L
  induction L with
  | nil => intro _ hx; cases hx
  | cons a tl ih =>
    intro hnd hx
    rcases List.mem_cons.mp hx with rfl | hx'
    · have hxtl : x ∉ tl := (List.nodup_cons.mp hnd).1
      simp [sum_map_ite_zero x tl hxtl]
    · have hxa : x ≠ a := by
        intro h
        exact (List.nodup_cons.mp hnd).1 (h ▸ hx')
      simp [hxa, ih (List.nodup_cons.mp hnd).2 hx']

theorem sum_counts (L : List ℤ) :
    ∀ (df : List PRow), L.Nodup → (∀ r ∈ df, r.label ∈ L) →
      (L.map (fun c => (df.filter (fun r => decide (r.label = c))).length)).sum =
        df.length := by
  intro df
  induction df with
  | nil =>
    intro _ _
    simp
  | cons r tl ih =>
    intro hnd hcov
    have hmap : L.map (fun c => ((r :: tl).filter
        (fun r' => decide (r'.label = c))).length) =
        L.map (fun c => (if r.label = c then (1 : ℕ) else 0) +
          (tl.filter (fun r' => decide (r'.label = c))).length) := by
      refine List.map_congr_left ?_
      intro c _
      by_cases h : r.label = c
      · simp [List.filter_cons, h]
        omega
      · simp [List.filter_cons, h]
    rw [hmap, sum_map_add_distrib,
      sum_map_ite_one r.label L hnd (hcov r (List.mem_cons_self r tl)),
      ih hnd (fun x hx => hcov x (List.mem_cons_of_mem r hx))]
    simp [Nat.add_comm]

/-- **C10.** The product pipeline's `cluster_statistics` has exactly one
entry per distinct cluster label of the clustered table (the noise label
`-1` included whenever present), listed in ascending label order, and
the `product_count` fields over all entries sum to `total_products`
(the row count of the clustered table). -/
theorem cluster_statistics_shape (df : List PRow) :
    ((cluster_statistics df).map (fun st => st.cluster) =
      List.insertionSort (· ≤ ·) (df.map (fun r => r.label)).dedup) ∧
    ((cluster_statistics df).map (fun st => st.cluster)).Sorted (· ≤ ·) ∧
    ((cluster_statistics df).map (fun st => st.cluster)).Nodup ∧
    (∀ c : ℤ, c ∈ (cluster_statistics df).map (fun st => st.cluster) ↔
      c ∈ df.map (fun r => r.label)) ∧
    ((cluster_statistics df).map (fun st => st.product_count)).sum = df.length := by
  have hfst : (cluster_statistics df).map (fun st => st.cluster) =
      List.insertionSort (· ≤ ·) (df.map (fun r => r.label)).dedup := by
    unfold cluster_statistics
    rw [List.map_map]
    exact List.map_id _ ▸ (by simp)
  refine ⟨hfst, ?_, ?_, ?_, ?_⟩
  · rw [hfst]
    exact List.sorted_insertionSort _ _
  · rw [hfst]
    exact ((List.perm_insertionSort _ _).nodup_iff).mpr (List.nodup_dedup _)
  · intro c
    rw [hfst, (List.perm_insertionSort _ _).mem_iff, List.mem_dedup]
  · have hcnt : (cluster_statistics df).map (fun st => st.product_count) =
        (List.insertionSort (· ≤ ·) (df.map (fun r => r.label)).dedup).map
          (fun c => (df.filter (fun r => decide (r.label = c))).length) := by
      unfold cluster_statistics
      rw [List.map_map]
      rfl
    rw [hcnt]
    refine sum_counts _ df
      (((List.perm_insertionSort _ _).nodup_iff).mpr (List.nodup_dedup _)) ?_
    intro r hr
    rw [(List.perm_insertionSort _ _).mem_iff, List.mem_dedup]
    exact List.mem_map.mpr ⟨r, hr, rfl⟩

/-- Witness for `cluster_statistics_shape`: the noise label `-1` appears
among the statistics entries of a concrete clustered table. -/
theorem cluster_statistics_shape_witness :
    (-1 : ℤ) ∈ (cluster_statistics
      [⟨-1, 2, 3⟩, ⟨0, 4, 1⟩, ⟨0, 6, 1⟩]).map (fun st => st.cluster) :=
  ((cluster_statistics_shape [⟨-1, 2, 3⟩, ⟨0, 4, 1⟩, ⟨0, 6, 1⟩]).2.2.2.1
    (-1)).mpr (by decide)
